import Mathlib

/-!
Verification of the shopping-cart subsystem (CartApi over a username-keyed map,
plus the catalog-enrichment read).  The store is embedded as an association
list with first-match lookup and replace-or-append update, matching the
semantics of a `Map` keyed by username.  The remote catalog lookup
(`fetchTransgourmetArticleDetails`), which either resolves to article details
or throws, is embedded as an oracle `String → Option ArticleDetails`; `none`
models a thrown error (network failure, non-success status, malformed
payload).  The sequential `for`/`await` loop of `getCart` becomes `List.map`.
-/

/-- A stored cart line: `{articleNumber: string, quantity: number}`. -/
structure CartPosition where
  articleNumber : String
  quantity : Int
deriving Repr, DecidableEq

/-- A cart: `{positions: CartPosition[]}`. -/
structure Cart where
  positions : List CartPosition
deriving Repr, DecidableEq

/-- A display line produced by the enrichment read. -/
structure CartPositionDisplay where
  articleNumber : String
  quantity : Int
  description : String
  price : Int
  imageUrl : String
deriving Repr, DecidableEq

/-- The enriched cart returned by `getCart`. -/
structure CartDisplay where
  positions : List CartPositionDisplay
  totalPositions : Int
deriving Repr, DecidableEq

/-- Result of a successful `fetchTransgourmetArticleDetails` call.  The
`description` field is `Option String` because the code defends against an
absent description with `articleDetails.description || ""`. -/
structure ArticleDetails where
  articleNumber : String
  description : Option String
  normalPrice : Int
deriving Repr, DecidableEq

/-- JS truthiness fallback `a || b` for an optional string: an absent or
empty string is falsy and yields `b`. -/
def jsOrElse (a : Option String) (b : String) : String :=
  match a with
  | some s => if s = "" then b else s
  | none => b

/-- The image-URL template synthesized from the article number
(`https://webshop.transgourmet.ch/images/articles/120px/<n>.jpg`). -/
def articleImageUrl (articleNumber : String) : String :=
  "https://webshop.transgourmet.ch/images/articles/120px/" ++ articleNumber ++ ".jpg"

/-- The cart storage: `Map<string, Cart>` keyed by username, embedded as an
association list (first matching key wins, as a map has unique keys). -/
abbrev CartStorage := List (String × Cart)

/-- `cartStorage.get(username)`: the stored cart, if the key is present. -/
def storageGet : CartStorage → String → Option Cart
  | [], _ => none
  | (k, v) :: rest, u => if k = u then some v else storageGet rest u

/-- `cartStorage.set(username, cart)`: replace the entry if the key is
present, otherwise add a new entry. -/
def storageSet : CartStorage → String → Cart → CartStorage
  | [], u, c => [(u, c)]
  | (k, v) :: rest, u, c =>
    if k = u then (k, c) :: rest else (k, v) :: storageSet rest u c

/-- `getCartInternal(username)`:
`this.cartStorage.get(username) || { positions: [] }`.
A pure read: `Map.get` never inserts, so the store is untouched. -/
def getCartInternal (s : CartStorage) (u : String) : Cart :=
  (storageGet s u).getD ⟨[]⟩

/-- One iteration of the `getCart` loop for one position: on a successful
lookup, description (with `|| ""` fallback), price and the synthesized image
URL; on a thrown lookup error, the degraded defaults. -/
def enrichPosition (lookup : String → Option ArticleDetails) (pos : CartPosition) :
    CartPositionDisplay :=
  match lookup pos.articleNumber with
  | some d =>
    { articleNumber := pos.articleNumber
      quantity := pos.quantity
      description := jsOrElse d.description ""
      price := d.normalPrice
      imageUrl := articleImageUrl pos.articleNumber }
  | none =>
    { articleNumber := pos.articleNumber
      quantity := pos.quantity
      description := ""
      price := 0
      imageUrl := articleImageUrl pos.articleNumber }

/-- `getCart(username)`: enrich every stored position in order, then
`totalPositions = positions.reduce((total, pos) => total + pos.quantity, 0)`. -/
def getCart (lookup : String → Option ArticleDetails) (s : CartStorage) (u : String) :
    CartDisplay :=
  let cart := getCartInternal s u
  let positions := cart.positions.map (enrichPosition lookup)
  { positions := positions
    totalPositions := positions.foldl (fun total pos => total + pos.quantity) 0 }

/-- The `findIndex`-then-update-or-push step of `addToCart`: increment the
quantity of the first position with the given article number in place, or
push a new position at the end. -/
def addPosition : List CartPosition → String → Int → List CartPosition
  | [], a, q => [⟨a, q⟩]
  | p :: rest, a, q =>
    if p.articleNumber = a then ⟨p.articleNumber, p.quantity + q⟩ :: rest
    else p :: addPosition rest a q

/-- `addToCart(username, articleNumber, quantity)`: read the cart, add or
update the position, write the cart back, return it. -/
def addToCart (s : CartStorage) (u a : String) (q : Int) : CartStorage × Cart :=
  let cart : Cart := ⟨addPosition (getCartInternal s u).positions a q⟩
  (storageSet s u cart, cart)

/-- `addMultipleToCart(username, positions)`: read the cart once, apply the
`addToCart` update step for each input position in order, write back once. -/
def addMultipleToCart (s : CartStorage) (u : String) (ps : List CartPosition) :
    CartStorage × Cart :=
  let cart : Cart :=
    ⟨ps.foldl (fun acc p => addPosition acc p.articleNumber p.quantity)
      (getCartInternal s u).positions⟩
  (storageSet s u cart, cart)

/-- `removeFromCart(username, articleNumber)`: filter the position out and
write the cart back. -/
def removeFromCart (s : CartStorage) (u a : String) : CartStorage × Cart :=
  let cart : Cart := ⟨(getCartInternal s u).positions.filter (fun p => p.articleNumber != a)⟩
  (storageSet s u cart, cart)

/-- The `findIndex`-then-set-or-push step of `updateCartPosition`: replace
the quantity of the first position with the given article number, or push a
new position at the end. -/
def setPosition : List CartPosition → String → Int → List CartPosition
  | [], a, q => [⟨a, q⟩]
  | p :: rest, a, q =>
    if p.articleNumber = a then ⟨p.articleNumber, q⟩ :: rest
    else p :: setPosition rest a q

/-- `updateCartPosition(username, articleNumber, quantity)`: read the cart,
replace or create the position, write the cart back. -/
def updateCartPosition (s : CartStorage) (u a : String) (q : Int) : CartStorage × Cart :=
  let cart : Cart := ⟨setPosition (getCartInternal s u).positions a q⟩
  (storageSet s u cart, cart)

/-- `clearCart(username)`: store an empty cart under the key. -/
def clearCart (s : CartStorage) (u : String) : CartStorage :=
  storageSet s u ⟨[]⟩

/-- `getCartItemCount(username)`:
`cart.positions.reduce((total, pos) => total + pos.quantity, 0)`. -/
def getCartItemCount (s : CartStorage) (u : String) : Int :=
  (getCartInternal s u).positions.foldl (fun total pos => total + pos.quantity) 0

/-- Modelled from the spec: `randomUUID` from `node:crypto` is outside this
repository; the spec's contract is a unique opaque order token ("any
UUID/ULID generator behind a narrow interface; determinism not required,
uniqueness is the only contract").  The generator state counts the
identifiers issued so far; the identifiers issued earlier are exactly those
below the counter, so each draw is distinct from every previously issued
one. -/
structure IdGen where
  next : Nat
deriving Repr, DecidableEq

/-- The identifiers this generator has already issued. -/
def IdGen.issued (g : IdGen) (id : Nat) : Prop :=
  id < g.next

instance (g : IdGen) (id : Nat) : Decidable (g.issued id) :=
  inferInstanceAs (Decidable (id < g.next))

/-- Modelled from the spec: one draw from the fresh-identifier generator. -/
def randomUUID (g : IdGen) : Nat × IdGen :=
  (g.next, ⟨g.next + 1⟩)

/-- `submitCart(username)`: draw a fresh order id, clear the cart, return
the id (with the updated store and generator). -/
def submitCart (s : CartStorage) (g : IdGen) (u : String) : Nat × CartStorage × IdGen :=
  let r := randomUUID g
  (r.1, clearCart s u, r.2)

/-- Uniqueness invariant of the data model: at most one line per article
number within a cart. -/
def Cart.wf (c : Cart) : Prop :=
  (c.positions.map (fun p => p.articleNumber)).Nodup

instance (c : Cart) : Decidable c.wf :=
  inferInstanceAs (Decidable (List.Nodup _))

/-- Every cart stored in the map satisfies the uniqueness invariant. -/
def storageWF (s : CartStorage) : Prop :=
  ∀ e ∈ s, Cart.wf e.2

instance (s : CartStorage) : Decidable (storageWF s) :=
  inferInstanceAs (Decidable (∀ e ∈ s, Cart.wf e.2))

/-- The lines of a cart carrying a given article number. -/
def articleLines (l : List CartPosition) (a : String) : List CartPosition :=
  l.filter (fun p => p.articleNumber == a)

/-- The quantity of the first line with a given article number, if any. -/
def findQuantity (l : List CartPosition) (a : String) : Option Int :=
  (l.find? (fun p => p.articleNumber == a)).map (fun p => p.quantity)

/-! ### Storage lemmas -/

theorem storageGet_storageSet_self (s : CartStorage) (u : String) (c : Cart) :
    storageGet (storageSet s u c) u = some c := by
  induction s with
  | nil => simp [storageSet, storageGet]
  | cons e rest ih =>
    obtain ⟨k, v⟩ := e
    by_cases h : k = u
    · simp [storageSet, storageGet, h]
    · simp [storageSet, storageGet, h, ih]

theorem storageSet_storageSet (s : CartStorage) (u : String) (c₁ c₂ : Cart) :
    storageSet (storageSet s u c₁) u c₂ = storageSet s u c₂ := by
  induction s with
  | nil => simp [storageSet]
  | cons e rest ih =>
    obtain ⟨k, v⟩ := e
    by_cases h : k = u
    · simp [storageSet, h]
    · simp [storageSet, h, ih]

theorem storageSet_of_storageGet_eq (s : CartStorage) (u : String) (c : Cart)
    (h : storageGet s u = some c) : storageSet s u c = s := by
  induction s with
  | nil => simp [storageGet] at h
  | cons e rest ih =>
    obtain ⟨k, v⟩ := e
    by_cases hk : k = u
    · simp [storageGet, hk] at h
      simp [storageSet, hk, h]
    · simp [storageGet, hk] at h
      simp [storageSet, hk, ih h]

theorem storageGet_mem {s : CartStorage} {u : String} {c : Cart}
    (h : storageGet s u = some c) : (u, c) ∈ s := by
  induction s with
  | nil => simp [storageGet] at h
  | cons e rest ih =>
    obtain ⟨k, v⟩ := e
    by_cases hk : k = u
    · simp [storageGet, hk] at h
      simp [hk, h]
    · simp [storageGet, hk] at h
      exact List.mem_cons_of_mem _ (ih h)

theorem getCartInternal_storageSet_self (s : CartStorage) (u : String) (c : Cart) :
    getCartInternal (storageSet s u c) u = c := by
  simp [getCartInternal, storageGet_storageSet_self]

/-! ### Sum lemmas -/

theorem foldl_add_quantity_display (l : List CartPositionDisplay) (c : Int) :
    l.foldl (fun total pos => total + pos.quantity) c = c + (l.map (fun p => p.quantity)).sum := by
  induction l generalizing c with
  | nil => simp
  | cons p rest ih => simp [ih, add_assoc]

theorem foldl_add_quantity_position (l : List CartPosition) (c : Int) :
    l.foldl (fun total pos => total + pos.quantity) c = c + (l.map (fun p => p.quantity)).sum := by
  induction l generalizing c with
  | nil => simp
  | cons p rest ih => simp [ih, add_assoc]

/-! ### Enrichment lemmas -/

theorem enrichPosition_articleNumber (lookup : String → Option ArticleDetails)
    (pos : CartPosition) : (enrichPosition lookup pos).articleNumber = pos.articleNumber := by
  unfold enrichPosition
  cases lookup pos.articleNumber <;> rfl

theorem enrichPosition_quantity (lookup : String → Option ArticleDetails)
    (pos : CartPosition) : (enrichPosition lookup pos).quantity = pos.quantity := by
  unfold enrichPosition
  cases lookup pos.articleNumber <;> rfl

theorem enrichPosition_of_fail (lookup : String → Option ArticleDetails)
    (pos : CartPosition) (h : lookup pos.articleNumber = none) :
    enrichPosition lookup pos =
      ⟨pos.articleNumber, pos.quantity, "", 0, articleImageUrl pos.articleNumber⟩ := by
  unfold enrichPosition
  rw [h]

theorem findQuantity_setPosition (l : List CartPosition) (a : String) (q : Int) :
    findQuantity (setPosition l a q) a = some q := by
  induction l with
  | nil => simp [setPosition, findQuantity, List.find?]
  | cons p rest ih =>
    by_cases h : p.articleNumber = a
    · simp [setPosition, findQuantity, h, List.find?]
    · have hb : (p.articleNumber == a) = false := by simp [h]
      simp only [setPosition, if_neg h, findQuantity, List.find?, hb] at ih ⊢
      exact ih

theorem map_quantity_enrich (lookup : String → Option ArticleDetails)
    (l : List CartPosition) :
    (l.map (enrichPosition lookup)).map (fun p => p.quantity)
      = l.map (fun p => p.quantity) := by
  induction l with
  | nil => rfl
  | cons p rest ih => simp [ih, enrichPosition_quantity]

/-! ### Claim theorems -/

/-- C9: for a username with no stored cart, `getCartInternal` returns a fresh
empty cart and `getCart` returns an empty display.  The reads are pure
functions of the store (`Map.get` never inserts), so no entry is created for
that username. -/
theorem getCart_unknown_user (lookup : String → Option ArticleDetails)
    (s : CartStorage) (u : String) (h : storageGet s u = none) :
    getCartInternal s u = ⟨[]⟩ ∧ getCart lookup s u = ⟨[], 0⟩ := by
  have h1 : getCartInternal s u = ⟨[]⟩ := by simp [getCartInternal, h]
  refine ⟨h1, ?_⟩
  simp [getCart, h1]

theorem getCart_unknown_user_witness :
    getCartInternal ([] : CartStorage) "alice" = ⟨[]⟩ ∧
      getCart (fun _ => none) ([] : CartStorage) "alice" = ⟨[], 0⟩ :=
  getCart_unknown_user (fun _ => none) [] "alice" rfl

/-- C10: `removeFromCart` writes the cart back unconditionally, so for a
username with no stored cart — even when the removed article is absent and
the cart contents are untouched — it creates a store entry for that username
holding an empty cart. -/
theorem removeFromCart_creates_entry (s : CartStorage) (u a : String)
    (h : storageGet s u = none) :
    storageGet (removeFromCart s u a).1 u = some ⟨[]⟩ := by
  have h1 : getCartInternal s u = ⟨[]⟩ := by simp [getCartInternal, h]
  simp [removeFromCart, h1, storageGet_storageSet_self]

theorem removeFromCart_creates_entry_witness :
    storageGet (removeFromCart ([] : CartStorage) "alice" "A").1 "alice" = some ⟨[]⟩ :=
  removeFromCart_creates_entry [] "alice" "A" rfl

/-- C7: `updateCartPosition` sets the line quantity to exactly the given
value, replacing an existing line's quantity and creating the line when
absent; in particular adding quantity 2 and then setting quantity 5 yields
quantity 5, not 7. -/
theorem updateCartPosition_replaces (s : CartStorage) (u a : String) (q : Int) :
    findQuantity (getCartInternal (updateCartPosition s u a q).1 u).positions a = some q ∧
      findQuantity
        (getCartInternal (updateCartPosition (addToCart [] u "A" 2).1 u "A" 5).1 u).positions
        "A" = some 5 := by
  constructor
  · simp [updateCartPosition, getCartInternal_storageSet_self, findQuantity_setPosition]
  · simp [updateCartPosition, getCartInternal_storageSet_self, findQuantity_setPosition]

/-- C5: `totalPositions` of the enrichment read is the sum of the quantities
of the display lines (degraded lines included), which is the sum of the
stored quantities, and `getCartItemCount` is the sum of stored quantities,
returning 0 for an empty or unknown cart. -/
theorem totalPositions_and_itemCount (lookup : String → Option ArticleDetails)
    (s : CartStorage) (u : String) :
    (getCart lookup s u).totalPositions
        = ((getCart lookup s u).positions.map (fun p => p.quantity)).sum ∧
      (getCart lookup s u).totalPositions
        = ((getCartInternal s u).positions.map (fun p => p.quantity)).sum ∧
      getCartItemCount s u
        = ((getCartInternal s u).positions.map (fun p => p.quantity)).sum ∧
      (storageGet s u = none → getCartItemCount s u = 0) ∧
      ((getCartInternal s u).positions = [] → getCartItemCount s u = 0) := by
  refine ⟨?_, ?_, ?_, ?_, ?_⟩
  · simp [getCart, foldl_add_quantity_display]
  · simp only [getCart]
    rw [foldl_add_quantity_display, map_quantity_enrich]
    simp
  · simp [getCartItemCount, foldl_add_quantity_position]
  · intro h
    simp [getCartItemCount, getCartInternal, h]
  · intro h
    simp [getCartItemCount, h]

theorem totalPositions_and_itemCount_witness :
    getCartItemCount ([] : CartStorage) "alice" = 0 ∧
      getCartItemCount [("bob", ⟨[]⟩)] "bob" = 0 :=
  ⟨(totalPositions_and_itemCount (fun _ => none) [] "alice").2.2.2.1 rfl,
   (totalPositions_and_itemCount (fun _ => none) [("bob", ⟨[]⟩)] "bob").2.2.2.2 (by decide)⟩

theorem map_project_enrich (lookup : String → Option ArticleDetails)
    (l : List CartPosition) :
    (l.map (enrichPosition lookup)).map (fun p => (p.articleNumber, p.quantity))
      = l.map (fun p => (p.articleNumber, p.quantity)) := by
  induction l with
  | nil => rfl
  | cons p rest ih =>
    simp [ih, enrichPosition_articleNumber, enrichPosition_quantity]

/-- C4: the display positions returned by `getCart` carry the stored cart's
article numbers and quantities in exactly the stored order, for every
possible outcome of the catalog lookups (the loop awaits each lookup in
position order, so completion order cannot reorder the output). -/
theorem getCart_preserves_order (lookup : String → Option ArticleDetails)
    (s : CartStorage) (u : String) :
    (getCart lookup s u).positions.map (fun p => (p.articleNumber, p.quantity))
      = (getCartInternal s u).positions.map (fun p => (p.articleNumber, p.quantity)) := by
  simpa [getCart] using map_project_enrich lookup (getCartInternal s u).positions

/-- C1: `getCart` is total (the read never fails as a whole); it returns one
display line per stored line; for a line whose catalog lookup fails it
returns a degraded line with the same article number and quantity, empty
description, zero price and the synthesized image URL; and every other line
is the full enrichment result for that position. -/
theorem getCart_lookup_failure (lookup : String → Option ArticleDetails)
    (s : CartStorage) (u : String) :
    (∀ i pos, (getCartInternal s u).positions.get? i = some pos →
        lookup pos.articleNumber = none →
        (getCart lookup s u).positions.get? i
          = some ⟨pos.articleNumber, pos.quantity, "", 0, articleImageUrl pos.articleNumber⟩) ∧
      (∀ i pos, (getCartInternal s u).positions.get? i = some pos →
        (getCart lookup s u).positions.get? i = some (enrichPosition lookup pos)) ∧
      (getCart lookup s u).positions.length = (getCartInternal s u).positions.length := by
  refine ⟨?_, ?_, ?_⟩
  · intro i pos hpos hfail
    rw [List.get?_eq_getElem?] at hpos
    simp only [getCart, List.get?_eq_getElem?, List.getElem?_map, hpos, Option.map_some']
    rw [enrichPosition_of_fail lookup pos hfail]
  · intro i pos hpos
    rw [List.get?_eq_getElem?] at hpos
    simp only [getCart, List.get?_eq_getElem?, List.getElem?_map, hpos, Option.map_some']
  · simp [getCart]

theorem getCart_lookup_failure_witness :
    (getCart (fun _ => none) [("alice", ⟨[⟨"A", 2⟩]⟩)] "alice").positions.get? 0
      = some ⟨"A", 2, "", 0, articleImageUrl "A"⟩ :=
  (getCart_lookup_failure (fun _ => none) [("alice", ⟨[⟨"A", 2⟩]⟩)] "alice").1 0 ⟨"A", 2⟩
    (by decide) rfl

/-- C8: `submitCart` returns an order identifier distinct from every
previously issued one (the generator, modelled from the spec's uniqueness
contract, records the ids issued so far) and newly recorded as issued;
afterwards the cart for that username is empty: the store key is present and
maps to the empty cart, a subsequent `getCart` returns no positions, and
`getCartItemCount` returns 0. -/
theorem submitCart_spec (lookup : String → Option ArticleDetails)
    (s : CartStorage) (g : IdGen) (u : String) :
    (∀ id, g.issued id → (submitCart s g u).1 ≠ id) ∧
      (submitCart s g u).2.2.issued (submitCart s g u).1 ∧
      storageGet (submitCart s g u).2.1 u = some ⟨[]⟩ ∧
      (getCart lookup (submitCart s g u).2.1 u).positions = [] ∧
      getCartItemCount (submitCart s g u).2.1 u = 0 := by
  refine ⟨?_, ?_, ?_, ?_, ?_⟩
  · intro id hid
    simp only [IdGen.issued] at hid
    simp only [submitCart, randomUUID]
    omega
  · simp [submitCart, randomUUID, IdGen.issued]
  · simp [submitCart, clearCart, storageGet_storageSet_self]
  · simp [getCart, getCartInternal, submitCart, clearCart, storageGet_storageSet_self]
  · simp [getCartItemCount, getCartInternal, submitCart, clearCart,
      storageGet_storageSet_self]

theorem submitCart_spec_witness :
    IdGen.issued ⟨1⟩ 0 ∧ (submitCart [] ⟨1⟩ "alice").1 ≠ 0 :=
  ⟨by decide, (submitCart_spec (fun _ => none) [] ⟨1⟩ "alice").1 0 (by decide)⟩

theorem addPosition_of_not_mem (l : List CartPosition) (a : String) (q : Int)
    (h : ∀ p ∈ l, p.articleNumber ≠ a) : addPosition l a q = l ++ [⟨a, q⟩] := by
  induction l with
  | nil => rfl
  | cons p rest ih =>
    have hp : p.articleNumber ≠ a := h p (List.mem_cons_self p rest)
    simp only [addPosition, if_neg hp, List.cons_append, List.cons.injEq, true_and]
    exact ih (fun x hx => h x (List.mem_cons_of_mem p hx))

theorem addPosition_append_last (l : List CartPosition) (a : String) (c q : Int)
    (h : ∀ p ∈ l, p.articleNumber ≠ a) :
    addPosition (l ++ [⟨a, c⟩]) a q = l ++ [⟨a, c + q⟩] := by
  induction l with
  | nil => simp [addPosition]
  | cons p rest ih =>
    have hp : p.articleNumber ≠ a := h p (List.mem_cons_self p rest)
    simp only [List.cons_append, addPosition, if_neg hp, List.cons.injEq, true_and]
    exact ih (fun x hx => h x (List.mem_cons_of_mem p hx))

theorem articleLines_of_not_mem (l : List CartPosition) (a : String)
    (h : ∀ p ∈ l, p.articleNumber ≠ a) : articleLines l a = [] := by
  rw [articleLines, List.filter_eq_nil_iff]
  intro p hp
  simp [h p hp]

theorem articleLines_append_last (l : List CartPosition) (a : String) (c : Int)
    (h : ∀ p ∈ l, p.articleNumber ≠ a) :
    articleLines (l ++ [⟨a, c⟩]) a = [⟨a, c⟩] := by
  have h1 : articleLines l a = [] := articleLines_of_not_mem l a h
  rw [articleLines] at h1 ⊢
  simp [List.filter_append, h1]

theorem foldl_addToCart_invariant (u a : String) (qs : List Int) :
    ∀ (st : CartStorage) (l : List CartPosition) (c : Int),
      (∀ p ∈ l, p.articleNumber ≠ a) →
      getCartInternal st u = ⟨l ++ [⟨a, c⟩]⟩ →
      getCartInternal (qs.foldl (fun s2 q2 => (addToCart s2 u a q2).1) st) u
        = ⟨l ++ [⟨a, c + qs.sum⟩]⟩ := by
  induction qs with
  | nil =>
    intro st l c hl hst
    simpa using hst
  | cons q2 qs2 ih =>
    intro st l c hl hst
    have hstep : getCartInternal (addToCart st u a q2).1 u = ⟨l ++ [⟨a, c + q2⟩]⟩ := by
      simp [addToCart, getCartInternal_storageSet_self, hst,
        addPosition_append_last l a c q2 hl]
    have h2 := ih (addToCart st u a q2).1 l (c + q2) hl hstep
    simpa [add_assoc] using h2

/-- C2: starting from a cart with no line for article `a`, a nonempty
sequence of `addToCart` calls for `a` leaves exactly one line for `a`, whose
quantity is the sum of the added quantities; the per-article quantity total
equals that sum for every (possibly empty) sequence of calls. -/
theorem addToCart_additivity (s : CartStorage) (u a : String) (qs : List Int)
    (h : ∀ p ∈ (getCartInternal s u).positions, p.articleNumber ≠ a) :
    (qs ≠ [] →
      articleLines
        (getCartInternal (qs.foldl (fun s2 q2 => (addToCart s2 u a q2).1) s) u).positions a
        = [⟨a, qs.sum⟩]) ∧
      ((articleLines
          (getCartInternal (qs.foldl (fun s2 q2 => (addToCart s2 u a q2).1) s) u).positions
          a).map (fun p => p.quantity)).sum = qs.sum := by
  cases qs with
  | nil =>
    refine ⟨fun hne => absurd rfl hne, ?_⟩
    simp [articleLines_of_not_mem _ a h]
  | cons q qs2 =>
    have hstep : getCartInternal (addToCart s u a q).1 u
        = ⟨(getCartInternal s u).positions ++ [⟨a, q⟩]⟩ := by
      simp [addToCart, getCartInternal_storageSet_self, addPosition_of_not_mem _ a q h]
    have hkey := foldl_addToCart_invariant u a qs2 (addToCart s u a q).1
      (getCartInternal s u).positions q h hstep
    constructor
    · intro _
      simp only [List.foldl_cons, hkey]
      rw [articleLines_append_last _ a _ h]
      simp
    · simp only [List.foldl_cons, hkey]
      rw [articleLines_append_last _ a _ h]
      simp

theorem addToCart_additivity_witness :
    articleLines
      (getCartInternal
        (([1, 2] : List Int).foldl (fun s2 q2 => (addToCart s2 "alice" "095210" q2).1) [])
        "alice").positions "095210" = [⟨"095210", 3⟩] := by
  have h := (addToCart_additivity [] "alice" "095210" [1, 2] (by decide)).1 (by decide)
  simpa using h

theorem foldl_addToCart_storageSet (u : String) (ps : List CartPosition) :
    ∀ (s : CartStorage) (l : List CartPosition),
      ps.foldl (fun st p => (addToCart st u p.articleNumber p.quantity).1) (storageSet s u ⟨l⟩)
        = storageSet s u
            ⟨ps.foldl (fun acc p => addPosition acc p.articleNumber p.quantity) l⟩ := by
  induction ps with
  | nil => intro s l; rfl
  | cons p ps2 ih =>
    intro s l
    simp only [List.foldl_cons]
    have h1 : (addToCart (storageSet s u ⟨l⟩) u p.articleNumber p.quantity).1
        = storageSet s u ⟨addPosition l p.articleNumber p.quantity⟩ := by
      simp [addToCart, getCartInternal_storageSet_self, storageSet_storageSet]
    rw [h1, ih]

/-- C3 counterexample: for the empty input sequence and a username with no
store entry, `addMultipleToCart` still writes the (empty) cart back and
creates a store entry, while folding `addToCart` over zero lines leaves the
store untouched — the two store states differ. -/
theorem addMultipleToCart_empty_differs :
    (addMultipleToCart ([] : CartStorage) "bob" ([] : List CartPosition)).1
      ≠ ([] : List CartPosition).foldl
          (fun st p => (addToCart st "bob" p.articleNumber p.quantity).1)
          ([] : CartStorage) := by
  decide

/-- C3 (amended): for every nonempty input sequence, `addMultipleToCart`
produces the same store state as folding `addToCart` over the input lines in
order; for the empty input the two agree whenever the username already has a
store entry (otherwise `addMultipleToCart` additionally creates an
empty-cart entry); duplicate article numbers are folded cumulatively, as in
the bob example with first-seen order and item count 6. -/
theorem addMultipleToCart_eq_foldl (s : CartStorage) (u : String)
    (p : CartPosition) (ps : List CartPosition) :
    (addMultipleToCart s u (p :: ps)).1
        = (p :: ps).foldl (fun st p2 => (addToCart st u p2.articleNumber p2.quantity).1) s ∧
      (∀ c : Cart, storageGet s u = some c → (addMultipleToCart s u []).1 = s) ∧
      (getCartInternal
          (addMultipleToCart [] "bob" [⟨"A", 1⟩, ⟨"B", 2⟩, ⟨"A", 3⟩]).1 "bob").positions
        = [⟨"A", 4⟩, ⟨"B", 2⟩] ∧
      getCartItemCount (addMultipleToCart [] "bob" [⟨"A", 1⟩, ⟨"B", 2⟩, ⟨"A", 3⟩]).1 "bob"
        = 6 := by
  refine ⟨?_, ?_, by decide, by decide⟩
  · simp only [List.foldl_cons]
    have h1 : (addToCart s u p.articleNumber p.quantity).1
        = storageSet s u
            ⟨addPosition (getCartInternal s u).positions p.articleNumber p.quantity⟩ := rfl
    rw [h1, foldl_addToCart_storageSet]
    rfl
  · intro c hc
    have h2 : getCartInternal s u = c := by simp [getCartInternal, hc]
    simp [addMultipleToCart, h2, storageSet_of_storageGet_eq s u c hc]

theorem addMultipleToCart_eq_foldl_witness :
    (addMultipleToCart [("bob", ⟨[]⟩)] "bob" [⟨"A", 1⟩]).1
        = ([⟨"A", 1⟩] : List CartPosition).foldl
            (fun st p2 => (addToCart st "bob" p2.articleNumber p2.quantity).1)
            [("bob", ⟨[]⟩)] ∧
      (addMultipleToCart [("bob", ⟨[]⟩)] "bob" []).1 = [("bob", ⟨[]⟩)] :=
  ⟨(addMultipleToCart_eq_foldl [("bob", ⟨[]⟩)] "bob" ⟨"A", 1⟩ []).1,
   (addMultipleToCart_eq_foldl [("bob", ⟨[]⟩)] "bob" ⟨"A", 1⟩ []).2.1 ⟨[]⟩ (by decide)⟩

theorem addPosition_keys (l : List CartPosition) (a : String) (q : Int) :
    (addPosition l a q).map (fun p => p.articleNumber)
      = if a ∈ l.map (fun p => p.articleNumber) then l.map (fun p => p.articleNumber)
        else l.map (fun p => p.articleNumber) ++ [a] := by
  induction l with
  | nil => simp [addPosition]
  | cons p rest ih =>
    by_cases h : p.articleNumber = a
    · simp [addPosition, h]
    · have h2 : ¬a = p.articleNumber := fun e => h e.symm
      simp only [addPosition, if_neg h, List.map_cons, ih, List.mem_cons, h2, false_or]
      split <;> simp

theorem addPosition_keys_nodup (l : List CartPosition) (a : String) (q : Int)
    (h : (l.map (fun p => p.articleNumber)).Nodup) :
    ((addPosition l a q).map (fun p => p.articleNumber)).Nodup := by
  rw [addPosition_keys]
  by_cases hmem : a ∈ l.map (fun p => p.articleNumber)
  · simpa [hmem] using h
  · simp [hmem, List.nodup_append, h]

theorem setPosition_keys (l : List CartPosition) (a : String) (q : Int) :
    (setPosition l a q).map (fun p => p.articleNumber)
      = if a ∈ l.map (fun p => p.articleNumber) then l.map (fun p => p.articleNumber)
        else l.map (fun p => p.articleNumber) ++ [a] := by
  induction l with
  | nil => simp [setPosition]
  | cons p rest ih =>
    by_cases h : p.articleNumber = a
    · simp [setPosition, h]
    · have h2 : ¬a = p.articleNumber := fun e => h e.symm
      simp only [setPosition, if_neg h, List.map_cons, ih, List.mem_cons, h2, false_or]
      split <;> simp

theorem setPosition_keys_nodup (l : List CartPosition) (a : String) (q : Int)
    (h : (l.map (fun p => p.articleNumber)).Nodup) :
    ((setPosition l a q).map (fun p => p.articleNumber)).Nodup := by
  rw [setPosition_keys]
  by_cases hmem : a ∈ l.map (fun p => p.articleNumber)
  · simpa [hmem] using h
  · simp [hmem, List.nodup_append, h]

theorem foldl_addPosition_nodup (ps : List CartPosition) :
    ∀ l : List CartPosition, (l.map (fun p => p.articleNumber)).Nodup →
      ((ps.foldl (fun acc p => addPosition acc p.articleNumber p.quantity) l).map
        (fun p => p.articleNumber)).Nodup := by
  induction ps with
  | nil => intro l h; exact h
  | cons p ps2 ih =>
    intro l h
    exact ih _ (addPosition_keys_nodup l p.articleNumber p.quantity h)

theorem filter_keys_nodup (l : List CartPosition) (f : CartPosition → Bool)
    (h : (l.map (fun p => p.articleNumber)).Nodup) :
    ((l.filter f).map (fun p => p.articleNumber)).Nodup :=
  List.Nodup.sublist (List.Sublist.map _ (List.filter_sublist l)) h

theorem storageWF_storageSet :
    ∀ (s : CartStorage) (u : String) (c : Cart),
      storageWF s → c.wf → storageWF (storageSet s u c) := by
  intro s u c
  induction s with
  | nil =>
    intro _ hc e he
    simp [storageSet] at he
    rw [he]
    exact hc
  | cons e2 rest ih =>
    intro hs hc e he
    obtain ⟨k, v⟩ := e2
    by_cases hk : k = u
    · simp only [storageSet, if_pos hk] at he
      rcases List.mem_cons.mp he with he | he
      · rw [he]; exact hc
      · exact hs e (List.mem_cons_of_mem _ he)
    · simp only [storageSet, if_neg hk] at he
      rcases List.mem_cons.mp he with he | he
      · rw [he]; exact hs (k, v) (List.mem_cons_self _ _)
      · exact ih (fun x hx => hs x (List.mem_cons_of_mem _ hx)) hc e he

theorem getCartInternal_wf (s : CartStorage) (u : String) (h : storageWF s) :
    (getCartInternal s u).wf := by
  unfold getCartInternal
  cases hg : storageGet s u with
  | none => simp [Cart.wf]
  | some c => simpa using h (u, c) (storageGet_mem hg)

/-- C6: every store mutation (`addToCart`, `addMultipleToCart`,
`removeFromCart`, `updateCartPosition`, `clearCart`) preserves the
uniqueness invariant: starting from a store whose carts each contain at most
one line per article number, the resulting store's carts all do too. -/
theorem storeOps_preserve_wf (s : CartStorage) (u a : String) (q : Int)
    (ps : List CartPosition) (h : storageWF s) :
    storageWF (addToCart s u a q).1 ∧ storageWF (addMultipleToCart s u ps).1 ∧
      storageWF (removeFromCart s u a).1 ∧ storageWF (updateCartPosition s u a q).1 ∧
      storageWF (clearCart s u) := by
  have hcart := getCartInternal_wf s u h
  refine ⟨?_, ?_, ?_, ?_, ?_⟩
  · exact storageWF_storageSet s u _ h (addPosition_keys_nodup _ a q hcart)
  · exact storageWF_storageSet s u _ h (foldl_addPosition_nodup ps _ hcart)
  · exact storageWF_storageSet s u _ h (filter_keys_nodup _ _ hcart)
  · exact storageWF_storageSet s u _ h (setPosition_keys_nodup _ a q hcart)
  · exact storageWF_storageSet s u _ h (by simp [Cart.wf])

theorem storeOps_preserve_wf_witness :
    storageWF (addToCart [("alice", ⟨[⟨"A", 2⟩]⟩)] "alice" "A" 1).1 :=
  (storeOps_preserve_wf [("alice", ⟨[⟨"A", 2⟩]⟩)] "alice" "A" 1 [] (by decide)).1
